import Mathlib

/-!
Shallow embedding of the product persistence and validation layer of a
JSON-file-backed catalog application, together with its user store.

Product store (list / getById / create / update / delete) over a single
JSON document; zod-style validation schemas for creation and update
payloads; an in-memory and a file-backed user store with case-insensitive
email uniqueness.

Prices and other JS numbers are modelled as rationals (`Rat`); timestamps
and identifiers as strings.  Nondeterministic inputs of an operation
(`new Date().toISOString()`, `randomUUID()`, `bcrypt.hash`, `genId`) are
supplied by an explicit environment record.  The products file on disk is
modelled by `FileData`: missing, well-formed (a JSON array of products),
or invalid (blank / unparseable / not an array).
-/

namespace Shop

/-- A product option, as in the `ShopifyOption` shape used by the store.
The creation schema lets the payload omit the option id, and such options
are stored verbatim, so the id is optional here. -/
structure ShopifyOption where
  id : Option String := none
  name : String
  values : List String
deriving Repr, DecidableEq

/-- A product image, as in the `ShopifyImage` shape used by the store;
the id is optional for the same reason as on `ShopifyOption`. -/
structure ShopifyImage where
  id : Option String := none
  src : String
  alt : Option String := none
  width : Option Rat := none
  height : Option Rat := none
deriving Repr, DecidableEq

/-- A stored product variant (`ShopifyVariant`): the identifier is always
present; the remaining fields are optional except the price. -/
structure ShopifyVariant where
  id : String
  sku : Option String := none
  title : Option String := none
  price : Rat
  compare_at_price : Option (Option Rat) := none
  inventory_quantity : Option Rat := none
  requires_shipping : Option Bool := none
  taxable : Option Bool := none
  option_values : Option (List String) := none
deriving Repr, DecidableEq

/-- A stored product (`ShopifyProduct`).  `published_at` may be a
timestamp string or null (`none`). -/
structure ShopifyProduct where
  id : String
  title : String
  body_html : Option String := none
  vendor : String
  product_type : Option String := none
  tags : Option (List String) := none
  options : Option (List ShopifyOption) := none
  images : Option (List ShopifyImage) := none
  variants : List ShopifyVariant
  created_at : String
  updated_at : String
  published_at : Option String := none
deriving Repr, DecidableEq

instance : Inhabited ShopifyVariant :=
  ⟨{ id := "", price := 0 }⟩

instance : Inhabited ShopifyProduct :=
  ⟨{ id := "", title := "", vendor := "", variants := [],
     created_at := "", updated_at := "" }⟩

/-- A list entry produced by `listProducts`: a product spread together
with the computed `min_price` field (`{...p, min_price}`). -/
structure ProductListItem extends ShopifyProduct where
  min_price : Rat
deriving Repr, DecidableEq

/-- A variant as it appears in a validated request payload: `variantSchema`
lets the caller supply an optional `id`, which the store overrides. -/
structure VariantInput where
  id : Option String := none
  sku : Option String := none
  title : Option String := none
  price : Rat
  compare_at_price : Option (Option Rat) := none
  inventory_quantity : Option Rat := none
  requires_shipping : Option Bool := none
  taxable : Option Bool := none
  option_values : Option (List String) := none
deriving Repr, DecidableEq

/-- The spread `{...v, id: newId}` turning a payload variant into a stored
variant: every field of `v` is kept and the identifier is overridden. -/
def VariantInput.withId (v : VariantInput) (newId : String) : ShopifyVariant :=
  { id := newId
    sku := v.sku
    title := v.title
    price := v.price
    compare_at_price := v.compare_at_price
    inventory_quantity := v.inventory_quantity
    requires_shipping := v.requires_shipping
    taxable := v.taxable
    option_values := v.option_values }

/-- `NewProductInput` from the store module: the payload accepted by
`createProduct` (title and vendor required, variants required). -/
structure NewProductInput where
  title : String
  body_html : Option String := none
  vendor : String
  product_type : Option String := none
  tags : Option (List String) := none
  options : Option (List ShopifyOption) := none
  images : Option (List ShopifyImage) := none
  variants : List VariantInput
  published_at : Option (Option String) := none
deriving Repr, DecidableEq

/-- `UpdateProductInput`: every field of `NewProductInput` optional
(absent fields are not overridden by the object spread). -/
structure UpdateInput where
  title : Option String := none
  body_html : Option String := none
  vendor : Option String := none
  product_type : Option String := none
  tags : Option (List String) := none
  options : Option (List ShopifyOption) := none
  images : Option (List ShopifyImage) := none
  variants : Option (List VariantInput) := none
  published_at : Option (Option String) := none
deriving Repr, DecidableEq

/-- State of the products JSON document on disk. -/
inductive FileData
  | missing
  | valid (products : List ShopifyProduct)
  | invalid
deriving Repr, DecidableEq

/-- Per-operation environment: the value of `new Date().toISOString()` and
the successive results of `randomUUID()`. -/
structure Env where
  now : String
  uuid : Nat → String

/-- `Array.prototype.findIndex`, returning the index of the first element
satisfying the predicate (the JS `-1` sentinel becomes `none`). -/
def findIndex (pred : α → Bool) : List α → Option Nat
  | [] => none
  | a :: l => if pred a then some 0 else (findIndex pred l).map (· + 1)

/-- `Array.prototype.map` with the element index, as in `map((v, i) => …)`,
starting the count at `i`. -/
def mapWithIndex (f : Nat → α → β) : Nat → List α → List β
  | _, [] => []
  | i, a :: l => f i a :: mapWithIndex f (i + 1) l

/-- The seed data written on first access (`createSeedProducts`). -/
def createSeedProducts (now : String) : List ShopifyProduct :=
  [{ id := "prod-1"
     title := "Sample T-Shirt"
     body_html := some
       "<p>A comfy cotton t-shirt inspired by Shopify.</p><p>Perfect for devs.</p>"
     vendor := "Dev Merch Co."
     product_type := some "Shirt"
     tags := some ["tshirt", "dev", "cotton"]
     options := some
       [{ id := some "opt-size", name := "Size", values := ["S", "M", "L"] },
        { id := some "opt-color", name := "Color", values := ["Black", "White"] }]
     images := some
       [{ id := some "img-1"
          src := "https://images.pexels.com/photos/7671166/pexels-photo-7671166.jpeg"
          alt := some "Black t-shirt on hanger" }]
     variants :=
       [{ id := "var-1", title := some "Black / M"
          price := Rat.mk' 1999 100
          inventory_quantity := some 10, sku := some "TSHIRT-BLK-M"
          option_values := some ["M", "Black"] },
        { id := "var-2", title := some "White / M"
          price := Rat.mk' 2199 100
          inventory_quantity := some 5, sku := some "TSHIRT-WHT-M"
          option_values := some ["M", "White"] }]
     created_at := now
     updated_at := now
     published_at := some now }]

/-- `ensureDataFileExists`: when the document is missing, write the seed
data; otherwise leave the file alone. -/
def ensureDataFileExists (env : Env) (f : FileData) : FileData :=
  match f with
  | .missing => .valid (createSeedProducts env.now)
  | f => f

/-- `readProductsFromFile`: ensure the file exists, then parse it; a blank,
unparseable, or non-array document degrades to the empty collection.
Returns the (possibly seeded) file together with the parsed products. -/
def readProductsFromFile (env : Env) (f : FileData) :
    FileData × List ShopifyProduct :=
  let f := ensureDataFileExists env f
  match f with
  | .valid ps => (.valid ps, ps)
  | f => (f, [])

/-- `writeProductsToFile`: serialize the whole collection over the file. -/
def writeProductsToFile (products : List ShopifyProduct) : FileData :=
  .valid products

/-- `Math.min(...xs)` over the (nonempty, in the guarded call site) list of
variant prices.  `Math.min()` of no arguments is Infinity; the store never
reaches that case because it guards on `variants.length > 0`. -/
def mathMin : List Rat → Rat
  | [] => 0
  | x :: xs => xs.foldl min x

/-- `listProducts`: every stored product decorated with `min_price`. -/
def listProducts (env : Env) (f : FileData) :
    FileData × List ProductListItem :=
  let (f, products) := readProductsFromFile env f
  (f, products.map fun p =>
    { toShopifyProduct := p
      min_price :=
        if p.variants.length > 0 then mathMin (p.variants.map (·.price))
        else 0 })

/-- `getProductById`: first stored product with the given identifier. -/
def getProductById (env : Env) (id : String) (f : FileData) :
    FileData × Option ShopifyProduct :=
  let (f, products) := readProductsFromFile env f
  (f, products.find? fun p => p.id == id)

/-- `createProduct`: fresh product id (`uuid 0`), a fresh id for every
payload variant (the i-th variant gets `uuid (i+1)`; whatever `id` the
payload variant carried is overridden by the spread), both timestamps set
to now, `published_at ?? now`, push at the end, persist everything. -/
def createProduct (env : Env) (input : NewProductInput) (f : FileData) :
    FileData × ShopifyProduct :=
  let (_, products) := readProductsFromFile env f
  let now := env.now
  let id := env.uuid 0
  let variants : List ShopifyVariant :=
    mapWithIndex (fun i v => v.withId (env.uuid (i + 1))) 0 input.variants
  let product : ShopifyProduct :=
    { id := id
      title := input.title
      body_html := input.body_html
      vendor := input.vendor
      product_type := input.product_type
      tags := input.tags
      options := input.options
      images := input.images
      variants := variants
      created_at := now
      updated_at := now
      published_at :=
        match input.published_at with
        | some (some s) => some s
        | _ => some now }
  (writeProductsToFile (products ++ [product]), product)

/-- The object spread `{...existing, ...input, variants: …, updated_at: …}`
of `updateProduct`: fields present in the partial input override the
existing ones; a supplied variant at index `i` gets the id of the existing
variant at index `i` when there is one (`existing.variants[i]?.id`), and a
fresh `randomUUID()` otherwise — here supplied as `env.uuid i`. -/
def mergeUpdate (env : Env) (input : UpdateInput) (existing : ShopifyProduct) :
    ShopifyProduct :=
  { id := existing.id
    title := input.title.getD existing.title
    body_html :=
      match input.body_html with
      | some v => some v
      | none => existing.body_html
    vendor := input.vendor.getD existing.vendor
    product_type :=
      match input.product_type with
      | some v => some v
      | none => existing.product_type
    tags :=
      match input.tags with
      | some v => some v
      | none => existing.tags
    options :=
      match input.options with
      | some v => some v
      | none => existing.options
    images :=
      match input.images with
      | some v => some v
      | none => existing.images
    variants :=
      match input.variants with
      | some vs =>
          mapWithIndex
            (fun i v =>
              v.withId
                (match existing.variants.get? i with
                 | some ev => ev.id
                 | none => env.uuid i))
            0 vs
      | none => existing.variants
    created_at := existing.created_at
    updated_at := env.now
    published_at :=
      match input.published_at with
      | some v => v
      | none => existing.published_at }

/-- `updateProduct`: find the product by id, merge the partial input onto
it, replace it in place and persist; `undefined` when the id is absent. -/
def updateProduct (env : Env) (id : String) (input : UpdateInput)
    (f : FileData) : FileData × Option ShopifyProduct :=
  let (f, products) := readProductsFromFile env f
  match findIndex (fun p => p.id == id) products with
  | none => (f, none)
  | some idx =>
      let existing := products.getD idx default
      let updated := mergeUpdate env input existing
      (writeProductsToFile (products.set idx updated), some updated)

/-- `deleteProduct`: splice out the first product with the given id and
persist; `false` without touching the file when the id is absent. -/
def deleteProduct (env : Env) (id : String) (f : FileData) :
    FileData × Bool :=
  let (f, products) := readProductsFromFile env f
  match findIndex (fun p => p.id == id) products with
  | none => (f, false)
  | some idx => (writeProductsToFile (products.eraseIdx idx), true)

/-! ### Validation schemas

Embedding of the zod schemas `variantSchema`, `optionSchema`,
`imageSchema`, `createProductSchema` and
`updateProductSchema = createProductSchema.partial()`.  A raw payload is
modelled with every field optional (`none` = key absent); a well-typed
value may still violate the declared constraints.  `safeParse` either
returns the typed value or a list of path-keyed issues — it never
throws. -/

/-- One field-keyed validation issue, as produced by the validation
library (a path into the payload plus a message). -/
structure Issue where
  path : List String
  message : String
deriving Repr, DecidableEq

/-- Raw (pre-validation) option payload. -/
structure RawOption where
  id : Option String := none
  name : Option String := none
  values : Option (List String) := none
deriving Repr, DecidableEq

/-- Raw (pre-validation) image payload. -/
structure RawImage where
  id : Option String := none
  src : Option String := none
  alt : Option String := none
  width : Option Rat := none
  height : Option Rat := none
deriving Repr, DecidableEq

/-- Raw (pre-validation) variant payload. -/
structure RawVariant where
  id : Option String := none
  sku : Option String := none
  title : Option String := none
  price : Option Rat := none
  compare_at_price : Option (Option Rat) := none
  inventory_quantity : Option Rat := none
  requires_shipping : Option Bool := none
  taxable : Option Bool := none
  option_values : Option (List String) := none
deriving Repr, DecidableEq

/-- Raw (pre-validation) product payload, shared by the create and update
schemas (the update schema merely makes every field optional). -/
structure RawCreate where
  title : Option String := none
  body_html : Option String := none
  vendor : Option String := none
  product_type : Option String := none
  tags : Option (List String) := none
  options : Option (List RawOption) := none
  images : Option (List RawImage) := none
  variants : Option (List RawVariant) := none
  published_at : Option (Option String) := none
deriving Repr, DecidableEq

/-- Syntactic URL validity as used by the image schema.  The source
delegates to the validation library's URL parser (not part of this
repository); modelled as: a nonempty scheme, then "://", then a nonempty
remainder. -/
def isValidUrl (s : String) : Bool :=
  match s.splitOn "://" with
  | scheme :: rest :: _ => decide (scheme ≠ "") && decide (rest ≠ "")
  | _ => false

/-- Helper for `isIsoDatetime`: one or more digits followed by `Z`. -/
def digitsThenZ : List Char → Bool
  | ['Z'] => true
  | c :: rest => c.isDigit && digitsThenZ rest
  | [] => false

/-- ISO-8601 UTC datetime validity as used for `published_at`.  The source
delegates to the validation library's datetime check (not part of this
repository); modelled as the shape
`YYYY-MM-DDTHH:MM:SS(.digits)?Z`. -/
def isIsoDatetime (s : String) : Bool :=
  match s.toList with
  | y1 :: y2 :: y3 :: y4 :: '-' :: m1 :: m2 :: '-' :: d1 :: d2 :: 'T' ::
      h1 :: h2 :: ':' :: n1 :: n2 :: ':' :: s1 :: s2 :: rest =>
      [y1, y2, y3, y4, m1, m2, d1, d2, h1, h2, n1, n2, s1, s2].all
        Char.isDigit &&
      (match rest with
       | ['Z'] => true
       | '.' :: c :: tail => c.isDigit && digitsThenZ (c :: tail)
       | _ => false)
  | _ => false

/-- Issues of `variantSchema` on one raw variant rooted at `base`:
price required and strictly positive; inventory quantity, when present,
an integer that is at least zero. -/
def checkVariant (base : List String) (v : RawVariant) : List Issue :=
  (match v.price with
   | none => [⟨base ++ ["price"], "Price is required"⟩]
   | some p =>
       if 0 < p then []
       else [⟨base ++ ["price"], "Price must be greater than 0"⟩]) ++
  (match v.inventory_quantity with
   | none => []
   | some q =>
       (if q.den = 1 then []
        else [⟨base ++ ["inventory_quantity"],
               "Expected integer, received float"⟩]) ++
       (if 0 ≤ q then []
        else [⟨base ++ ["inventory_quantity"],
               "Number must be greater than or equal to 0"⟩]))

/-- Issues of `optionSchema` on one raw option rooted at `base`. -/
def checkOption (base : List String) (o : RawOption) : List Issue :=
  (match o.name with
   | none => [⟨base ++ ["name"], "Required"⟩]
   | some n =>
       if 1 ≤ n.length then []
       else [⟨base ++ ["name"], "Option name is required"⟩]) ++
  (match o.values with
   | none => [⟨base ++ ["values"], "Required"⟩]
   | some vs =>
       if 1 ≤ vs.length then []
       else [⟨base ++ ["values"], "Option must have at least one value"⟩])

/-- Issues of `imageSchema` on one raw image rooted at `base`. -/
def checkImage (base : List String) (img : RawImage) : List Issue :=
  match img.src with
  | none => [⟨base ++ ["src"], "Required"⟩]
  | some s =>
      if isValidUrl s then []
      else [⟨base ++ ["src"], "Image must be a valid URL"⟩]

/-- Issues of `z.string().min(1, msg)` on a required field. -/
def checkRequiredString (field msg : String) (v : Option String) :
    List Issue :=
  match v with
  | none => [⟨[field], "Required"⟩]
  | some s => if 1 ≤ s.length then [] else [⟨[field], msg⟩]

/-- Issues of the optional `body_html` rule (minimum 50 characters when
present). -/
def checkBody (v : Option String) : List Issue :=
  match v with
  | none => []
  | some s =>
      if 50 ≤ s.length then []
      else [⟨["body_html"], "Description must be at least 50 characters"⟩]

/-- Issues of a present `options` array. -/
def checkOptionsList (os : List RawOption) : List Issue :=
  (mapWithIndex (fun i o => checkOption ["options", toString i] o) 0 os).flatten

/-- Issues of a present `images` array. -/
def checkImagesList (is : List RawImage) : List Issue :=
  (mapWithIndex (fun i img => checkImage ["images", toString i] img) 0 is).flatten

/-- Issues of a present `variants` array: nonempty, then per-variant. -/
def checkVariantsList (vs : List RawVariant) : List Issue :=
  (if 1 ≤ vs.length then []
   else [⟨["variants"], "At least one variant is required"⟩]) ++
  (mapWithIndex (fun i v => checkVariant ["variants", toString i] v) 0 vs).flatten

/-- Issues of the optional nullable `published_at` datetime rule. -/
def checkPublished (v : Option (Option String)) : List Issue :=
  match v with
  | some (some s) =>
      if isIsoDatetime s then []
      else [⟨["published_at"], "Invalid datetime"⟩]
  | _ => []

/-- Issues of an optional field: an absent field is not checked. -/
def checkOptional (f : α → List Issue) : Option α → List Issue
  | none => []
  | some x => f x

/-- Issues of the required `variants` field. -/
def checkRequiredVariants : Option (List RawVariant) → List Issue
  | none => [⟨["variants"], "Required"⟩]
  | some vs => checkVariantsList vs

/-- Issues of `z.string().min(1, msg)` after `.partial()`: only checked
when present. -/
def checkOptString (field msg : String) : Option String → List Issue
  | none => []
  | some s => if 1 ≤ s.length then [] else [⟨[field], msg⟩]

/-- All issues `createProductSchema.safeParse` reports on a payload. -/
def checkCreateProduct (r : RawCreate) : List Issue :=
  checkRequiredString "title" "Title is required" r.title ++
  checkBody r.body_html ++
  checkRequiredString "vendor" "Vendor is required" r.vendor ++
  checkOptional checkOptionsList r.options ++
  checkOptional checkImagesList r.images ++
  checkRequiredVariants r.variants ++
  checkPublished r.published_at

/-- All issues `updateProductSchema.safeParse` reports: identical rules,
but every top-level field may be absent. -/
def checkUpdateProduct (r : RawCreate) : List Issue :=
  checkOptString "title" "Title is required" r.title ++
  checkBody r.body_html ++
  checkOptString "vendor" "Vendor is required" r.vendor ++
  checkOptional checkOptionsList r.options ++
  checkOptional checkImagesList r.images ++
  checkOptional checkVariantsList r.variants ++
  checkPublished r.published_at

/-- Typed value of a validated option. -/
def RawOption.toShopifyOption (o : RawOption) : ShopifyOption :=
  { id := o.id, name := o.name.getD "", values := o.values.getD [] }

/-- Typed value of a validated image. -/
def RawImage.toShopifyImage (img : RawImage) : ShopifyImage :=
  { id := img.id, src := img.src.getD "", alt := img.alt,
    width := img.width, height := img.height }

/-- Typed value of a validated variant. -/
def RawVariant.toVariantInput (v : RawVariant) : VariantInput :=
  { id := v.id, sku := v.sku, title := v.title, price := v.price.getD 0,
    compare_at_price := v.compare_at_price,
    inventory_quantity := v.inventory_quantity,
    requires_shipping := v.requires_shipping, taxable := v.taxable,
    option_values := v.option_values }

/-- `createProductSchema.safeParse`: a typed creation payload on success,
the full issue list on failure; the parse itself is total (validation
failure is data, not a fault). -/
def parseCreateProduct (r : RawCreate) : Except (List Issue) NewProductInput :=
  match checkCreateProduct r with
  | [] =>
      .ok
        { title := r.title.getD ""
          body_html := r.body_html
          vendor := r.vendor.getD ""
          product_type := r.product_type
          tags := r.tags
          options := r.options.map (·.map RawOption.toShopifyOption)
          images := r.images.map (·.map RawImage.toShopifyImage)
          variants := (r.variants.getD []).map RawVariant.toVariantInput
          published_at := r.published_at }
  | issues => .error issues

/-- `updateProductSchema.safeParse`: the partial counterpart. -/
def parseUpdateProduct (r : RawCreate) : Except (List Issue) UpdateInput :=
  match checkUpdateProduct r with
  | [] =>
      .ok
        { title := r.title
          body_html := r.body_html
          vendor := r.vendor
          product_type := r.product_type
          tags := r.tags
          options := r.options.map (·.map RawOption.toShopifyOption)
          images := r.images.map (·.map RawImage.toShopifyImage)
          variants := r.variants.map (·.map RawVariant.toVariantInput)
          published_at := r.published_at }
  | issues => .error issues

/-! ### User store

Embedding of the in-memory user store and of the file-backed user store
(lazy one-time disk load, write-through on mutation).  `bcrypt.hash` and
`genId` are supplied by a `UserEnv`. -/

/-- A parsed JSON value, for the users document on disk. -/
inductive Json
  | null
  | bool (b : Bool)
  | num (q : Rat)
  | str (s : String)
  | arr (items : List Json)
  | obj (fields : List (String × Json))

/-- Property access `j[k]` on a parsed JSON value. -/
def Json.getField (j : Json) (k : String) : Option Json :=
  match j with
  | .obj fields => fields.lookup k
  | _ => none

/-- A local credential account (`LocalUser`).  The disk loader only checks
the `id`, `email` and `passwordHash` fields, so a loaded record may lack a
name; accounts created through `createUser` always carry one. -/
structure LocalUser where
  id : String
  name : Option String := none
  email : String
  passwordHash : String
deriving Repr, DecidableEq

/-- Per-call environment of the user store: the `genId()` result and the
salted `bcrypt.hash(password, 10)` function. -/
structure UserEnv where
  freshId : String
  bcryptHash : String → String

/-- `String.prototype.toLowerCase`, modelled per character. -/
def lowerStr (s : String) : String :=
  String.mk (s.data.map Char.toLower)

/-- The in-memory store's `createUser`: reject (leaving the list alone)
when some stored email matches case-insensitively, otherwise hash, append
and return the new record.  The thrown `Error` is modelled as
`Except.error` of its message. -/
def createUserMem (env : UserEnv) (name email password : String)
    (users : List LocalUser) : Except String LocalUser × List LocalUser :=
  match users.find? (fun u => lowerStr u.email == lowerStr email) with
  | some _ => (.error "User with this email already exists", users)
  | none =>
      let user : LocalUser :=
        { id := env.freshId, name := some name, email := email,
          passwordHash := env.bcryptHash password }
      (.ok user, users ++ [user])

/-- State of the users JSON document on disk. -/
inductive UserDisk
  | absent
  | unreadable
  | unparseable
  | json (j : Json)

/-- The `typeof x === "string"` view of a property access result. -/
def strVal? : Option Json → Option String
  | some (.str s) => some s
  | _ => none

/-- The runtime type guard of `loadUsersFromDisk`: an object whose `id`,
`email` and `passwordHash` properties are strings (the `name` property is
not checked — a loaded record may lack it). -/
def asLocalUser? (j : Json) : Option LocalUser :=
  match strVal? (j.getField "id"), strVal? (j.getField "email"),
      strVal? (j.getField "passwordHash") with
  | some i, some e, some h =>
      some
        { id := i
          name := strVal? (j.getField "name")
          email := e
          passwordHash := h }
  | _, _, _ => none

/-- `loadUsersFromDisk`: a missing file (ENOENT), any other read error,
an unparseable document, or a non-array document all load as the empty
list; an array keeps exactly the entries passing the type guard.  The
function is total: loading never raises to the caller. -/
def loadUsersFromDisk (d : UserDisk) : List LocalUser :=
  match d with
  | .absent => []
  | .unreadable => []
  | .unparseable => []
  | .json j =>
      match j with
      | .arr items => items.filterMap asLocalUser?
      | _ => []

/-- State of the file-backed user store: the process-wide loaded flag, the
in-memory list, and the document on disk. -/
structure UserStore where
  loaded : Bool
  users : List LocalUser
  disk : UserDisk

/-- `ensureLoaded`: on the first call replace the in-memory list by the
disk contents and set the flag; afterwards do nothing. -/
def ensureLoaded (s : UserStore) : UserStore :=
  if s.loaded then s
  else { s with users := loadUsersFromDisk s.disk, loaded := true }

/-- JSON serialization of one user record for `saveUsersToDisk`. -/
def LocalUser.toJson (u : LocalUser) : Json :=
  .obj
    ([("id", .str u.id)] ++
     (match u.name with
      | some n => [("name", Json.str n)]
      | none => []) ++
     [("email", .str u.email), ("passwordHash", .str u.passwordHash)])

/-- `saveUsersToDisk`: write the whole list over the document. -/
def saveUsersToDisk (users : List LocalUser) : UserDisk :=
  .json (.arr (users.map LocalUser.toJson))

/-- The file-backed store's `createUser`: lazy-load once, then behave as
the in-memory variant and additionally write the new list through to
disk. -/
def createUserFile (env : UserEnv) (name email password : String)
    (s : UserStore) : Except String LocalUser × UserStore :=
  let s := ensureLoaded s
  match s.users.find? (fun u => lowerStr u.email == lowerStr email) with
  | some _ => (.error "User with this email already exists", s)
  | none =>
      let user : LocalUser :=
        { id := env.freshId, name := some name, email := email,
          passwordHash := env.bcryptHash password }
      let users := s.users ++ [user]
      (.ok user, { s with users := users, disk := saveUsersToDisk users })

/-! ### Helper lemmas -/

theorem one_le_length_of_ne_empty (s : String) (h : s ≠ "") :
    1 ≤ s.length := by
  rcases s with ⟨data⟩
  cases data with
  | nil => exact absurd rfl h
  | cons c cs => simp [String.length]

theorem foldl_min_mem : ∀ (xs : List Rat) (x : Rat), xs.foldl min x ∈ x :: xs
  | [], x => by simp
  | y :: ys, x => by
      have ih := foldl_min_mem ys (min x y)
      rcases List.mem_cons.1 ih with h | h
      · rcases min_choice x y with hc | hc <;> rw [List.foldl_cons, h, hc] <;> simp
      · simp [List.foldl_cons]
        exact Or.inr (Or.inr h)

theorem foldl_min_le_init : ∀ (xs : List Rat) (x : Rat), xs.foldl min x ≤ x
  | [], _ => le_refl _
  | z :: zs, x =>
      le_trans (foldl_min_le_init zs (min x z)) (min_le_left _ _)

theorem foldl_min_le_mem :
    ∀ (xs : List Rat) (x y : Rat), y ∈ xs → xs.foldl min x ≤ y
  | [], _, _, h => by simp at h
  | z :: zs, x, y, h => by
      rcases List.mem_cons.1 h with rfl | h
      · exact le_trans (foldl_min_le_init zs (min x y)) (min_le_right _ _)
      · exact foldl_min_le_mem zs (min x z) y h

theorem findIndex_eq_none (pred : α → Bool) :
    ∀ (l : List α), (∀ a ∈ l, pred a = false) → findIndex pred l = none
  | [], _ => rfl
  | a :: l, h => by
      have ha := h a (by simp)
      simp [findIndex, ha, findIndex_eq_none pred l fun b hb => h b (by simp [hb])]

theorem findIndex_isSome (pred : α → Bool) :
    ∀ (l : List α), (∃ a ∈ l, pred a = true) → ∃ i, findIndex pred l = some i
  | [], h => by simp at h
  | a :: l, h => by
      by_cases ha : pred a = true
      · exact ⟨0, by simp [findIndex, ha]⟩
      · rcases h with ⟨b, hb, hpb⟩
        rcases List.mem_cons.1 hb with rfl | hb
        · exact absurd hpb ha
        · rcases findIndex_isSome pred l ⟨b, hb, hpb⟩ with ⟨i, hi⟩
          exact ⟨i + 1, by simp [findIndex, ha, hi]⟩

theorem findIndex_some_split (pred : α → Bool) :
    ∀ (l : List α) (i : Nat), findIndex pred l = some i →
      ∃ l₁ a l₂, l = l₁ ++ a :: l₂ ∧ l₁.length = i ∧ pred a = true ∧
        ∀ b ∈ l₁, pred b = false
  | [], i, h => by simp [findIndex] at h
  | a :: l, i, h => by
      by_cases ha : pred a = true
      · simp [findIndex, ha] at h
        exact ⟨[], a, l, by simp, by simp [← h], ha, by simp⟩
      · simp [findIndex, ha] at h
        rcases h with ⟨j, hj, rfl⟩
        rcases findIndex_some_split pred l j hj with ⟨l₁, b, l₂, rfl, hlen, hpb, hl₁⟩
        refine ⟨a :: l₁, b, l₂, by simp, by simp [hlen], hpb, ?_⟩
        intro c hc
        rcases List.mem_cons.1 hc with rfl | hc
        · simpa using ha
        · exact hl₁ c hc

theorem getD_append_cons (l₁ : List α) (a : α) (l₂ : List α) (d : α) :
    (l₁ ++ a :: l₂).getD l₁.length d = a := by
  induction l₁ with
  | nil => rfl
  | cons x xs ih => simpa using ih

theorem set_append_cons (l₁ : List α) (a u : α) (l₂ : List α) :
    (l₁ ++ a :: l₂).set l₁.length u = l₁ ++ u :: l₂ := by
  induction l₁ with
  | nil => rfl
  | cons x xs ih => simp [List.set, ih]

theorem eraseIdx_append_cons (l₁ : List α) (a : α) (l₂ : List α) :
    (l₁ ++ a :: l₂).eraseIdx l₁.length = l₁ ++ l₂ := by
  induction l₁ with
  | nil => rfl
  | cons x xs ih => simp [List.eraseIdx, ih]

theorem mapWithIndex_length (f : Nat → α → β) :
    ∀ (n : Nat) (l : List α), (mapWithIndex f n l).length = l.length
  | _, [] => rfl
  | n, a :: l => by simp [mapWithIndex, mapWithIndex_length f (n + 1) l]

theorem mapWithIndex_get? (f : Nat → α → β) :
    ∀ (l : List α) (n i : Nat),
      (mapWithIndex f n l).get? i = (l.get? i).map (f (n + i))
  | [], n, i => by simp [mapWithIndex]
  | a :: l, n, 0 => by simp [mapWithIndex]
  | a :: l, n, i + 1 => by
      simpa [mapWithIndex, Nat.add_assoc, Nat.add_comm 1 i] using
        mapWithIndex_get? f l (n + 1) i

theorem mem_mapWithIndex (f : Nat → α → β) :
    ∀ (l : List α) (n : Nat) (b : β), b ∈ mapWithIndex f n l →
      ∃ i a, a ∈ l ∧ b = f i a
  | [], n, b, h => by simp [mapWithIndex] at h
  | a :: l, n, b, h => by
      rcases List.mem_cons.1 h with rfl | h
      · exact ⟨n, a, by simp, rfl⟩
      · rcases mem_mapWithIndex f l (n + 1) b h with ⟨i, c, hc, rfl⟩
        exact ⟨i, c, by simp [hc], rfl⟩

theorem mapWithIndex_mem_of_get? (f : Nat → α → β) {l : List α} {i : Nat}
    {a : α} (n : Nat) (h : l.get? i = some a) :
    f (n + i) a ∈ mapWithIndex f n l := by
  have := mapWithIndex_get? f l n i
  rw [h] at this
  exact List.mem_iff_get?.2 ⟨i, this⟩

theorem mapWithIndex_eq_nil (f : Nat → α → β) :
    ∀ (n : Nat) (l : List α), mapWithIndex f n l = [] ↔ l = []
  | _, [] => by simp [mapWithIndex]
  | _, a :: l => by simp [mapWithIndex]

theorem mapWithIndex_map (f : Nat → α → β) (g : β → γ) :
    ∀ (n : Nat) (l : List α),
      (mapWithIndex f n l).map g = mapWithIndex (fun i a => g (f i a)) n l
  | _, [] => rfl
  | n, a :: l => by simp [mapWithIndex, mapWithIndex_map f g (n + 1) l]

theorem mapWithIndex_const (g : Nat → β) :
    ∀ (n : Nat) (l : List α),
      mapWithIndex (fun i _ => g i) n l = (List.range' n l.length).map g
  | _, [] => rfl
  | n, a :: l => by
      simp [mapWithIndex, List.range', mapWithIndex_const g (n + 1) l]

theorem mapWithIndex_nodup (g : Nat → β) (hg : Function.Injective g)
    (n : Nat) (l : List α) : (mapWithIndex (fun i _ => g i) n l).Nodup := by
  rw [mapWithIndex_const]
  exact (List.nodup_range' n l.length).map hg

theorem get?_append_cons (l₁ : List α) (a : α) (l₂ : List α) :
    (l₁ ++ a :: l₂).get? l₁.length = some a := by
  induction l₁ with
  | nil => rfl
  | cons x xs ih => simpa using ih

theorem get?_set_ne' (l : List α) (u : α) {i j : Nat} (h : i ≠ j) :
    (l.set i u).get? j = l.get? j := by
  rw [List.get?_eq_getElem?, List.get?_eq_getElem?]
  exact List.getElem?_set_ne h

/-! ### Concrete instances used by witnesses and counterexamples -/

/-- A concrete environment: a fixed clock and an enumerated UUID supply. -/
def exEnv : Env :=
  { now := "2024-01-01T00:00:00Z", uuid := fun k => "fresh-" ++ toString k }

/-- A concrete single-variant product. -/
def exProduct : ShopifyProduct :=
  { id := "p1", title := "P", vendor := "V",
    variants := [{ id := "v1", price := 5 }],
    created_at := "T0", updated_at := "T0" }

/-! ### Claim theorems -/

/-- C5: for every stored collection, `listProducts()` returns exactly the
stored products in file storage (insertion) order, each augmented with a
`min_price` field equal to the minimum of that product's variant prices,
or 0 if the product has no variants. -/
theorem listProducts_min_price (env : Env) (ps : List ShopifyProduct) :
    (listProducts env (FileData.valid ps)).1 = FileData.valid ps ∧
    (listProducts env (FileData.valid ps)).2.map (·.toShopifyProduct) = ps ∧
    ∀ item ∈ (listProducts env (FileData.valid ps)).2,
      (item.variants = [] → item.min_price = 0) ∧
      (item.variants ≠ [] →
        item.min_price ∈ item.variants.map (·.price) ∧
        ∀ q ∈ item.variants.map (·.price), item.min_price ≤ q) := by
  refine ⟨rfl, ?_, ?_⟩
  · simp only [listProducts, readProductsFromFile, ensureDataFileExists,
      List.map_map]
    exact List.map_id ps
  · intro item hitem
    simp only [listProducts, readProductsFromFile, ensureDataFileExists,
      List.mem_map] at hitem
    obtain ⟨p, hp, rfl⟩ := hitem
    refine ⟨fun hv => ?_, fun hv => ?_⟩
    · have hv' : p.variants = [] := hv
      show (if p.variants.length > 0 then mathMin (p.variants.map (·.price))
        else 0) = 0
      simp [hv']
    · have hv' : p.variants ≠ [] := hv
      rcases List.exists_cons_of_ne_nil hv' with ⟨v, vs, hvs⟩
      refine ⟨?_, ?_⟩
      · show (if p.variants.length > 0 then
            mathMin (p.variants.map (·.price)) else 0)
          ∈ p.variants.map (·.price)
        rw [hvs]
        simpa [mathMin] using foldl_min_mem (vs.map (·.price)) v.price
      · intro q hq
        have hq' : q ∈ p.variants.map (·.price) := hq
        show (if p.variants.length > 0 then
            mathMin (p.variants.map (·.price)) else 0) ≤ q
        rw [hvs]
        rw [hvs] at hq'
        simp only [List.map_cons, List.mem_cons] at hq'
        rcases hq' with rfl | hq'
        · simpa [mathMin] using foldl_min_le_init (vs.map (·.price)) v.price
        · simpa [mathMin] using
            foldl_min_le_mem (vs.map (·.price)) v.price q hq'

/-- C5 witness: the single-variant product yields its own variant price as
the minimum. -/
theorem listProducts_min_price_w :
    ({ toShopifyProduct := exProduct, min_price := 5 } :
        ProductListItem).min_price
      ∈ ({ toShopifyProduct := exProduct, min_price := 5 } :
        ProductListItem).variants.map (·.price) := by
  have h := (listProducts_min_price exEnv [exProduct]).2.2
  exact ((h { toShopifyProduct := exProduct, min_price := 5 } (by decide)).2
    (by decide)).1

/-- C3 counterexample: the first `getProductById` call on a missing
products document writes the seed data to it, so the persisted document
is not left unchanged on the first access, contrary to the claim. -/
theorem getProductById_seeds_missing_file :
    (getProductById exEnv "prod-1" FileData.missing).1
        = FileData.valid (createSeedProducts exEnv.now) ∧
      FileData.valid (createSeedProducts exEnv.now) ≠ FileData.missing := by
  exact ⟨rfl, by simp⟩

/-- C3 (amended): `getProductById(id)` returns the stored product with
that identifier or a not-found signal, and leaves an existing document —
well-formed or malformed — unchanged; on first access, when the document
does not yet exist, it initializes it with the seed data. -/
theorem getProductById_spec (env : Env) (id : String)
    (ps : List ShopifyProduct) :
    (getProductById env id (FileData.valid ps)).1 = FileData.valid ps ∧
    (getProductById env id FileData.invalid).1 = FileData.invalid ∧
    (getProductById env id FileData.missing).1 =
        FileData.valid (createSeedProducts env.now) ∧
    (∀ p, (getProductById env id (FileData.valid ps)).2 = some p →
        p ∈ ps ∧ p.id = id) ∧
    ((getProductById env id (FileData.valid ps)).2 = none →
        ∀ p ∈ ps, p.id ≠ id) := by
  refine ⟨rfl, rfl, rfl, ?_, ?_⟩
  · intro p hp
    have hfind : ps.find? (fun q => q.id == id) = some p := hp
    exact ⟨List.mem_of_find?_eq_some hfind,
      by simpa using List.find?_some hfind⟩
  · intro hnone p hp
    have hfind : ps.find? (fun q => q.id == id) = none := hnone
    have := List.find?_eq_none.1 hfind p hp
    simpa using this

/-- C3 witness: looking up the seed product by its identifier returns a
stored product carrying that identifier. -/
theorem getProductById_spec_w :
    (createSeedProducts "T0").getD 0 default ∈ createSeedProducts "T0" ∧
      ((createSeedProducts "T0").getD 0 default).id = "prod-1" := by
  exact (getProductById_spec exEnv "prod-1" (createSeedProducts "T0")).2.2.2.1
    ((createSeedProducts "T0").getD 0 default) (by decide)

/-- C7: deleting an identifier present in the collection (whose stored
identifiers are unique, per the data model) returns true and removes
exactly that product, after which looking the identifier up yields
not-found; deleting an absent identifier returns false and leaves the
stored collection unchanged. -/
theorem deleteProduct_spec (env : Env) (ps : List ShopifyProduct)
    (id : String) :
    ((∃ p ∈ ps, p.id = id) → (ps.map (·.id)).Nodup →
      ∃ l₁ p l₂, ps = l₁ ++ p :: l₂ ∧ p.id = id ∧
        deleteProduct env id (FileData.valid ps) =
          (FileData.valid (l₁ ++ l₂), true) ∧
        (getProductById env id (FileData.valid (l₁ ++ l₂))).2 = none) ∧
    ((∀ p ∈ ps, p.id ≠ id) →
      deleteProduct env id (FileData.valid ps) = (FileData.valid ps, false)) := by
  constructor
  · rintro ⟨p, hp, hpid⟩ hnodup
    obtain ⟨i, hi⟩ := findIndex_isSome (fun q => q.id == id) ps
      ⟨p, hp, by simpa using hpid⟩
    obtain ⟨l₁, a, l₂, rfl, hlen, hpa, hl₁⟩ :=
      findIndex_some_split (fun q => q.id == id) ps i hi
    have haid : a.id = id := by simpa using hpa
    refine ⟨l₁, a, l₂, rfl, haid, ?_, ?_⟩
    · simp only [deleteProduct, readProductsFromFile, ensureDataFileExists,
        writeProductsToFile, hi]
      rw [← hlen, eraseIdx_append_cons]
    · have hfind : (l₁ ++ l₂).find? (fun q => q.id == id) = none := by
        apply List.find?_eq_none.2
        intro q hq
        rcases List.mem_append.1 hq with hq | hq
        · simpa using hl₁ q hq
        · have hids : ((l₁ ++ a :: l₂).map (·.id)).Nodup := hnodup
          rw [List.map_append, List.map_cons] at hids
          have h2 := (List.nodup_cons.1 (hids.of_append_right)).1
          intro hcontra
          have : q.id = id := by simpa using hcontra
          exact h2 (by
            rw [haid, ← this]
            exact List.mem_map_of_mem (·.id) hq)
      simpa [getProductById, readProductsFromFile, ensureDataFileExists]
        using hfind
  · intro hnone
    have hfi : findIndex (fun q => q.id == id) ps = none :=
      findIndex_eq_none _ ps fun a ha => by simpa using hnone a ha
    simp [deleteProduct, readProductsFromFile, ensureDataFileExists, hfi]

/-- C7 witness: deleting the seed product makes its identifier
unfindable, and deleting an absent identifier is a no-op returning
false. -/
theorem deleteProduct_spec_w :
    (getProductById exEnv "prod-1"
        (deleteProduct exEnv "prod-1"
          (FileData.valid (createSeedProducts "T0"))).1).2 = none ∧
    deleteProduct exEnv "nope" (FileData.valid (createSeedProducts "T0"))
      = (FileData.valid (createSeedProducts "T0"), false) := by
  constructor
  · obtain ⟨l₁, p, l₂, hsplit, hid, hdel, hget⟩ :=
      (deleteProduct_spec exEnv (createSeedProducts "T0") "prod-1").1
        ⟨(createSeedProducts "T0").getD 0 default, by decide, by decide⟩
        (by decide)
    rw [hdel]
    exact hget
  · exact (deleteProduct_spec exEnv (createSeedProducts "T0") "nope").2
      (by decide)

/-- C6: updating a present product with the empty partial payload returns
and persists a product in which every field other than updated_at is
unchanged from the stored product, and leaves every other product in the
collection unchanged. -/
theorem updateProduct_empty_payload (env : Env) (ps : List ShopifyProduct)
    (id : String) (hmem : ∃ p ∈ ps, p.id = id) :
    ∃ idx e u, findIndex (fun p => p.id == id) ps = some idx ∧
      ps.get? idx = some e ∧
      updateProduct env id {} (FileData.valid ps) =
        (FileData.valid (ps.set idx u), some u) ∧
      u.id = e.id ∧ u.title = e.title ∧ u.body_html = e.body_html ∧
      u.vendor = e.vendor ∧ u.product_type = e.product_type ∧
      u.tags = e.tags ∧ u.options = e.options ∧ u.images = e.images ∧
      u.variants = e.variants ∧ u.created_at = e.created_at ∧
      u.published_at = e.published_at ∧ u.updated_at = env.now ∧
      ∀ j, j ≠ idx → (ps.set idx u).get? j = ps.get? j := by
  obtain ⟨p, hp, hpid⟩ := hmem
  obtain ⟨i, hi⟩ := findIndex_isSome (fun q => q.id == id) ps
    ⟨p, hp, by simpa using hpid⟩
  obtain ⟨l₁, a, l₂, rfl, hlen, hpa, hl₁⟩ :=
    findIndex_some_split (fun q => q.id == id) ps i hi
  have hgetD : (l₁ ++ a :: l₂).getD i default = a := by
    rw [← hlen]; exact getD_append_cons l₁ a l₂ default
  refine ⟨i, a, mergeUpdate env {} a, hi, ?_, ?_, rfl, rfl, rfl, rfl, rfl,
    rfl, rfl, rfl, rfl, rfl, rfl, rfl, ?_⟩
  · rw [← hlen]; exact get?_append_cons l₁ a l₂
  · simp only [updateProduct, readProductsFromFile, ensureDataFileExists,
      hi, hgetD, writeProductsToFile]
  · intro j hj
    exact get?_set_ne' _ _ fun h => hj h.symm

/-- C6 witness: on the seed collection the empty update bumps updated_at
to the operation's clock. -/
theorem updateProduct_empty_payload_w :
    ((updateProduct exEnv "prod-1" {}
        (FileData.valid (createSeedProducts "T0"))).2.map (·.updated_at))
      = some exEnv.now := by
  obtain ⟨idx, e, u, hidx, he, heq, -, -, -, -, -, -, -, -, -, -, -, hup, -⟩ :=
    updateProduct_empty_payload exEnv (createSeedProducts "T0") "prod-1"
      ⟨(createSeedProducts "T0").getD 0 default, by decide, by decide⟩
  rw [heq]
  simp [hup]

/-- C1 counterexample: the stored seed product's variant at index 0 has
identifier "var-1"; the update payload's variant at index 0 explicitly
gives identifier "custom", yet the updated variant carries the stored
positional identifier "var-1" — not a fresh identifier (the fresh supply
at that point would yield "fresh-0"), contrary to the claim. -/
theorem updateProduct_explicit_id_counterexample :
    ((updateProduct exEnv "prod-1"
        { variants := some [{ id := some "custom", price := 5 }] }
        (FileData.valid (createSeedProducts "T0"))).2.map
      (fun u => u.variants.map (·.id))) = some ["var-1"] ∧
    exEnv.uuid 0 = "fresh-0" ∧ ("var-1" : String) ≠ "fresh-0" ∧
    ("var-1" : String) ≠ "custom" := by
  exact ⟨by decide, rfl, by decide, by decide⟩

/-- C1 (amended): when a validated partial update supplies a variants
list, each incoming variant gets the stored product's variant identifier
at its positional index whenever the stored product has a variant at that
index — irrespective of whether the incoming variant explicitly gives an
id, which is discarded — and otherwise gets a fresh identifier; the
updated product is returned and persisted. -/
theorem updateProduct_variant_ids (env : Env) (ps : List ShopifyProduct)
    (id : String) (input : UpdateInput) (vs : List VariantInput)
    (hvs : input.variants = some vs) (hmem : ∃ p ∈ ps, p.id = id) :
    ∃ idx e u, findIndex (fun p => p.id == id) ps = some idx ∧
      ps.get? idx = some e ∧
      updateProduct env id input (FileData.valid ps) =
        (FileData.valid (ps.set idx u), some u) ∧
      u.variants.length = vs.length ∧
      (∀ i v, vs.get? i = some v → i < e.variants.length →
        ∃ ev, e.variants.get? i = some ev ∧
          u.variants.get? i = some (v.withId ev.id)) ∧
      (∀ i v, vs.get? i = some v → e.variants.length ≤ i →
        u.variants.get? i = some (v.withId (env.uuid i))) := by
  obtain ⟨p, hp, hpid⟩ := hmem
  obtain ⟨i, hi⟩ := findIndex_isSome (fun q => q.id == id) ps
    ⟨p, hp, by simpa using hpid⟩
  obtain ⟨l₁, a, l₂, rfl, hlen, hpa, hl₁⟩ :=
    findIndex_some_split (fun q => q.id == id) ps i hi
  have hgetD : (l₁ ++ a :: l₂).getD i default = a := by
    rw [← hlen]; exact getD_append_cons l₁ a l₂ default
  have huv : (mergeUpdate env input a).variants =
      mapWithIndex
        (fun i v =>
          VariantInput.withId v
            (match a.variants.get? i with
             | some ev => ev.id
             | none => env.uuid i)) 0 vs := by
    simp only [mergeUpdate, hvs]
  refine ⟨i, a, mergeUpdate env input a, hi, ?_, ?_, ?_, ?_, ?_⟩
  · rw [← hlen]; exact get?_append_cons l₁ a l₂
  · simp only [updateProduct, readProductsFromFile, ensureDataFileExists,
      hi, hgetD, writeProductsToFile]
  · rw [huv]
    exact mapWithIndex_length _ 0 vs
  · intro j v hv hj
    obtain ⟨ev, hev⟩ : ∃ ev, a.variants.get? j = some ev := by
      rcases h : a.variants.get? j with _ | ev
      · rw [List.get?_eq_none] at h; omega
      · exact ⟨ev, rfl⟩
    refine ⟨ev, hev, ?_⟩
    rw [huv, mapWithIndex_get?, hv]
    have hev' : a.variants[j]? = some ev := by
      rw [← List.get?_eq_getElem?]; exact hev
    simp [hev']
  · intro j v hv hj
    have hev' : a.variants[j]? = none := by
      rw [← List.get?_eq_getElem?]; exact List.get?_eq_none.2 hj
    rw [huv, mapWithIndex_get?, hv]
    simp [hev']

/-- C1 witness: an in-range incoming variant without an id keeps the
stored positional id, and an out-of-range one gets a fresh id. -/
theorem updateProduct_variant_ids_w :
    ((updateProduct exEnv "p1"
        { variants := some
            [{ price := 7 }, { id := some "x", price := 9 }] }
        (FileData.valid [exProduct])).2.map
      (fun u => u.variants.map (·.id))) = some ["v1", "fresh-1"] := by
  obtain ⟨idx, e, u, hidx, he, heq, hlength, hkeep, hfresh⟩ :=
    updateProduct_variant_ids exEnv [exProduct] "p1"
      { variants := some [{ price := 7 }, { id := some "x", price := 9 }] }
      [{ price := 7 }, { id := some "x", price := 9 }] rfl
      ⟨exProduct, by decide, by decide⟩
  have hidx0 : idx = 0 := by
    have h0 : findIndex (fun p => p.id == "p1") [exProduct] = some 0 := by
      decide
    rw [h0] at hidx
    exact (Option.some.inj hidx).symm
  subst hidx0
  have he0 : e = exProduct := by
    have h : some exProduct = some e := he
    exact (Option.some.inj h).symm
  subst he0
  obtain ⟨ev, hev, h0⟩ := hkeep 0 { price := 7 } rfl (by decide)
  have hev2 : some ({ id := "v1", price := 5 } : ShopifyVariant) = some ev :=
    hev
  have hev3 := Option.some.inj hev2
  rw [← hev3] at h0
  have h1 := hfresh 1 { id := some "x", price := 9 } rfl (by decide)
  have hvars : u.variants =
      [VariantInput.withId { price := 7 } "v1",
       VariantInput.withId { id := some "x", price := 9 } (exEnv.uuid 1)] := by
    apply List.ext_get?
    intro n
    match n with
    | 0 => exact h0
    | 1 => exact h1
    | (n + 2) =>
        have hL : u.variants.get? (n + 2) = none := by
          apply List.get?_eq_none.2
          rw [hlength]
          show 2 ≤ n + 2
          omega
        have hR : ([VariantInput.withId { price := 7 } "v1",
            VariantInput.withId { id := some "x", price := 9 }
              (exEnv.uuid 1)] : List ShopifyVariant).get? (n + 2) = none := by
          apply List.get?_eq_none.2
          show 2 ≤ n + 2
          omega
        rw [hL, hR]
  rw [heq]
  show some (u.variants.map (·.id)) = some ["v1", "fresh-1"]
  rw [hvars]
  rfl

/-- C2 counterexample: a creation payload that provides published_at as
null (an allowed validated value) does not see that provided value on the
created product: published_at is set to the operation's current time
instead. -/
theorem createProduct_published_null_counterexample :
    (createProduct exEnv
        { title := "t", vendor := "v", variants := [{ price := 5 }],
          published_at := some none }
        (FileData.valid [])).2.published_at = some exEnv.now ∧
      some exEnv.now ≠ (none : Option String) := by
  exact ⟨rfl, by simp⟩

/-- C2 (amended): `createProduct` on a validated payload returns a
product with a fresh identifier (the uuid supply being injective and
disjoint from the stored identifiers), gives every variant a fresh
identifier, sets created_at = updated_at = now, sets published_at to the
payload's value when provided as a non-null timestamp and to now when
omitted or null, appends the product at the end of the stored collection
and persists the entire collection. -/
theorem createProduct_spec (env : Env) (ps : List ShopifyProduct)
    (input : NewProductInput)
    (hinj : Function.Injective env.uuid)
    (hfresh : ∀ k, ∀ p ∈ ps, env.uuid k ≠ p.id) :
    ∃ prod, createProduct env input (FileData.valid ps) =
        (FileData.valid (ps ++ [prod]), prod) ∧
      prod.id = env.uuid 0 ∧ prod.id ∉ ps.map (·.id) ∧
      prod.created_at = env.now ∧ prod.updated_at = env.now ∧
      (∀ s, input.published_at = some (some s) →
        prod.published_at = some s) ∧
      (input.published_at = none ∨ input.published_at = some none →
        prod.published_at = some env.now) ∧
      prod.variants.length = input.variants.length ∧
      (∀ i v, input.variants.get? i = some v →
        prod.variants.get? i = some (v.withId (env.uuid (i + 1)))) ∧
      (prod.variants.map (·.id)).Nodup ∧
      prod.id ∉ prod.variants.map (·.id) ∧
      ∀ vid ∈ prod.variants.map (·.id), vid ∉ ps.map (·.id) := by
  have hvarids : (createProduct env input (FileData.valid ps)).2.variants.map
      (·.id) = mapWithIndex (fun i _ => env.uuid (i + 1)) 0 input.variants := by
    show (mapWithIndex (fun i v => v.withId (env.uuid (i + 1))) 0
        input.variants).map (·.id) = _
    rw [mapWithIndex_map]
    rfl
  refine ⟨(createProduct env input (FileData.valid ps)).2, rfl, rfl, ?_,
    rfl, rfl, ?_, ?_, ?_, ?_, ?_, ?_, ?_⟩
  · intro hmem
    obtain ⟨p, hp, hpid⟩ := List.mem_map.1 hmem
    exact hfresh 0 p hp hpid.symm
  · intro s hs
    show (match input.published_at with
      | some (some s) => some s
      | _ => some env.now) = some s
    rw [hs]
  · intro h
    show (match input.published_at with
      | some (some s) => some s
      | _ => some env.now) = some env.now
    rcases h with h | h <;> rw [h]
  · exact mapWithIndex_length _ 0 input.variants
  · intro i v hv
    show (mapWithIndex (fun i v => v.withId (env.uuid (i + 1))) 0
        input.variants).get? i = _
    rw [mapWithIndex_get?, hv]
    simp
  · rw [hvarids]
    exact mapWithIndex_nodup _ (fun a b h => by simpa using hinj h) 0 _
  · rw [hvarids, mapWithIndex_const]
    intro hmem
    obtain ⟨k, hk, hkid⟩ := List.mem_map.1 hmem
    have : (0 : Nat) = k + 1 := hinj hkid.symm
    omega
  · rw [hvarids, mapWithIndex_const]
    intro vid hvid hmem
    obtain ⟨k, hk, hkid⟩ := List.mem_map.1 hvid
    obtain ⟨p, hp, hpid⟩ := List.mem_map.1 hmem
    exact hfresh (k + 1) p hp (by rw [hkid, hpid])

/-- An environment whose uuid supply is provably injective: the k-th
fresh identifier is a run of k+1 copies of the letter u. -/
def exEnvInj : Env :=
  { now := "NOW", uuid := fun k => String.mk (List.replicate (k + 1) 'u') }

theorem exEnvInj_uuid_inj : Function.Injective exEnvInj.uuid := by
  intro a b h
  have hd : List.replicate (a + 1) 'u' = List.replicate (b + 1) 'u' :=
    congrArg String.data h
  have hl := congrArg List.length hd
  simp at hl
  exact hl

theorem exEnvInj_fresh :
    ∀ (k : Nat), ∀ p ∈ [exProduct], exEnvInj.uuid k ≠ p.id := by
  intro k p hp h
  have hp' : p = exProduct := by simpa using hp
  subst hp'
  have hd : List.replicate (k + 1) 'u' = ['p', '1'] := congrArg String.data h
  have hh := congrArg (fun l => l.headD 'z') hd
  simp [List.replicate_succ] at hh

/-- C2 witness: with an injective fresh supply over a one-product store,
creation stamps both timestamps with the clock and defaults published_at
to the clock when the payload omits it. -/
theorem createProduct_spec_w :
    (createProduct exEnvInj
        { title := "t", vendor := "v", variants := [{ price := 5 }] }
        (FileData.valid [exProduct])).2.created_at = exEnvInj.now ∧
    (createProduct exEnvInj
        { title := "t", vendor := "v", variants := [{ price := 5 }] }
        (FileData.valid [exProduct])).2.updated_at = exEnvInj.now ∧
    (createProduct exEnvInj
        { title := "t", vendor := "v", variants := [{ price := 5 }] }
        (FileData.valid [exProduct])).2.published_at = some exEnvInj.now := by
  obtain ⟨prod, heq, hid, hnotin, hca, hua, hpubS, hpubN, hlen, hget, hnd,
      hidv, hfr⟩ :=
    createProduct_spec exEnvInj [exProduct]
      { title := "t", vendor := "v", variants := [{ price := 5 }] }
      exEnvInj_uuid_inj exEnvInj_fresh
  have hsnd : (createProduct exEnvInj
      { title := "t", vendor := "v", variants := [{ price := 5 }] }
      (FileData.valid [exProduct])).2 = prod := congrArg Prod.snd heq
  rw [hsnd]
  exact ⟨hca, hua, hpubN (Or.inl rfl)⟩

/-! ### Operation sequences for the store invariant -/

/-- One mutating store operation together with its call environment. -/
inductive StoreOp
  | create (env : Env) (input : NewProductInput)
  | update (env : Env) (id : String) (input : UpdateInput)
  | remove (env : Env) (id : String)

/-- Apply one operation to the products document, dropping the returned
value. -/
def applyOp (f : FileData) : StoreOp → FileData
  | .create env input => (createProduct env input f).1
  | .update env id input => (updateProduct env id input f).1
  | .remove env id => (deleteProduct env id f).1

/-- Apply a sequence of operations left to right. -/
def applyOps (f : FileData) (ops : List StoreOp) : FileData :=
  ops.foldl applyOp f

/-- An operation whose payload passed the corresponding schema (deletes
carry no payload). -/
def ValidOp : StoreOp → Prop
  | .create _ input => ∃ r, parseCreateProduct r = .ok input
  | .update _ _ input => ∃ r, parseUpdateProduct r = .ok input
  | .remove _ _ => True

/-- The data-model invariant on one product: at least one variant, every
variant strictly positively priced. -/
def ProductOk (p : ShopifyProduct) : Prop :=
  p.variants ≠ [] ∧ ∀ v ∈ p.variants, 0 < v.price

/-- The invariant on the document: well-formed, every stored product
satisfies `ProductOk`. -/
def StoreOk : FileData → Prop
  | .valid ps => ∀ p ∈ ps, ProductOk p
  | _ => False

theorem checkVariantsList_ok (vs : List RawVariant)
    (h : checkVariantsList vs = []) :
    vs ≠ [] ∧ ∀ v ∈ vs, ∃ p, v.price = some p ∧ 0 < p := by
  rcases List.append_eq_nil.1 h with ⟨h1, h2⟩
  constructor
  · intro hnil
    rw [hnil] at h1
    simp at h1
  · intro v hv
    obtain ⟨i, hi⟩ := List.mem_iff_get?.1 hv
    have hvc : checkVariant ["variants", toString i] v = [] := by
      have hmem := mapWithIndex_mem_of_get?
        (fun i v => checkVariant ["variants", toString i] v) 0 hi
      exact List.flatten_eq_nil_iff.1 h2 _ (by simpa using hmem)
    rcases List.append_eq_nil.1 hvc with ⟨hp, -⟩
    cases hpr : v.price with
    | none => rw [hpr] at hp; simp at hp
    | some p =>
        refine ⟨p, rfl, ?_⟩
        rw [hpr] at hp
        by_cases h0 : 0 < p
        · exact h0
        · simp [h0] at hp

theorem parseCreate_ok_variants (r : RawCreate) (input : NewProductInput)
    (h : parseCreateProduct r = .ok input) :
    input.variants ≠ [] ∧ ∀ v ∈ input.variants, 0 < v.price := by
  unfold parseCreateProduct at h
  cases hc : checkCreateProduct r with
  | cons a l => rw [hc] at h; simp at h
  | nil =>
      rw [hc] at h
      have hrec := Except.ok.inj h
      unfold checkCreateProduct at hc
      rcases List.append_eq_nil.1 hc with ⟨hc, h7⟩
      rcases List.append_eq_nil.1 hc with ⟨hc, h6⟩
      cases hvr : r.variants with
      | none => rw [hvr] at h6; simp [checkRequiredVariants] at h6
      | some vs =>
          rw [hvr] at h6
          obtain ⟨hne, hpos⟩ := checkVariantsList_ok vs h6
          have hv : input.variants = vs.map RawVariant.toVariantInput := by
            rw [← hrec]
            simp [hvr]
          constructor
          · rw [hv]
            simpa using hne
          · intro v hvmem
            rw [hv] at hvmem
            obtain ⟨w, hw, rfl⟩ := List.mem_map.1 hvmem
            obtain ⟨p, hp, hppos⟩ := hpos w hw
            show 0 < w.price.getD 0
            rw [hp]
            exact hppos

theorem parseUpdate_ok_variants (r : RawCreate) (input : UpdateInput)
    (h : parseUpdateProduct r = .ok input) :
    input.variants = none ∨
      ∃ vs, input.variants = some vs ∧ vs ≠ [] ∧ ∀ v ∈ vs, 0 < v.price := by
  unfold parseUpdateProduct at h
  cases hc : checkUpdateProduct r with
  | cons a l => rw [hc] at h; simp at h
  | nil =>
      rw [hc] at h
      have hrec := Except.ok.inj h
      unfold checkUpdateProduct at hc
      rcases List.append_eq_nil.1 hc with ⟨hc, h7⟩
      rcases List.append_eq_nil.1 hc with ⟨hc, h6⟩
      cases hvr : r.variants with
      | none =>
          left
          rw [← hrec]
          simp [hvr]
      | some vs =>
          rw [hvr] at h6
          obtain ⟨hne, hpos⟩ := checkVariantsList_ok vs h6
          right
          refine ⟨vs.map RawVariant.toVariantInput, ?_, by simpa using hne, ?_⟩
          · rw [← hrec]
            simp [hvr]
          · intro v hvmem
            obtain ⟨w, hw, rfl⟩ := List.mem_map.1 hvmem
            obtain ⟨p, hp, hppos⟩ := hpos w hw
            show 0 < w.price.getD 0
            rw [hp]
            exact hppos

theorem mapped_variants_ok (g : Nat → String)
    (vs : List VariantInput) (hne : vs ≠ [])
    (hpos : ∀ v ∈ vs, 0 < v.price) :
    (mapWithIndex (fun i v => VariantInput.withId v (g i)) 0 vs ≠ [] ∧
      ∀ w ∈ mapWithIndex (fun i v => VariantInput.withId v (g i)) 0 vs,
        0 < w.price) := by
  constructor
  · intro hnil
    exact hne ((mapWithIndex_eq_nil _ 0 vs).1 hnil)
  · intro w hw
    obtain ⟨i, v, hv, rfl⟩ := mem_mapWithIndex _ vs 0 w hw
    exact hpos v hv

theorem applyOp_preserves (f : FileData) (op : StoreOp)
    (hok : StoreOk f) (hvalid : ValidOp op) : StoreOk (applyOp f op) := by
  cases f with
  | missing => exact absurd hok (by simp [StoreOk])
  | invalid => exact absurd hok (by simp [StoreOk])
  | valid ps =>
      have hps : ∀ p ∈ ps, ProductOk p := hok
      cases op with
      | create env input =>
          obtain ⟨r, hr⟩ := hvalid
          obtain ⟨hne, hpos⟩ := parseCreate_ok_variants r input hr
          show StoreOk (createProduct env input (FileData.valid ps)).1
          intro p hp
          rcases List.mem_append.1 hp with hp | hp
          · exact hps p hp
          · have hp' := List.mem_singleton.1 hp
            subst hp'
            obtain ⟨h1, h2⟩ := mapped_variants_ok
              (fun i => env.uuid (i + 1)) input.variants hne hpos
            exact ⟨h1, h2⟩
      | update env id input =>
          obtain ⟨r, hr⟩ := hvalid
          show StoreOk (updateProduct env id input (FileData.valid ps)).1
          rcases hfi : findIndex (fun p => p.id == id) ps with _ | idx
          · simpa [updateProduct, readProductsFromFile,
              ensureDataFileExists, hfi, StoreOk] using hps
          · obtain ⟨l₁, a, l₂, hsplit, hlen, -, -⟩ :=
              findIndex_some_split (fun p => p.id == id) ps idx hfi
            have hgetD : ps.getD idx default = a := by
              rw [hsplit, ← hlen]
              exact getD_append_cons l₁ a l₂ default
            have haok : ProductOk a := hps a (by rw [hsplit]; simp)
            have hmerged : ProductOk
                (mergeUpdate env input (ps.getD idx default)) := by
              rw [hgetD]
              rcases parseUpdate_ok_variants r input hr with hnone | hsome
              · have hva : (mergeUpdate env input a).variants = a.variants := by
                  simp [mergeUpdate, hnone]
                exact ⟨by rw [hva]; exact haok.1, by rw [hva]; exact haok.2⟩
              · obtain ⟨vs, hvs, hne, hpos⟩ := hsome
                have hva : (mergeUpdate env input a).variants =
                    mapWithIndex
                      (fun i v =>
                        VariantInput.withId v
                          (match a.variants.get? i with
                           | some ev => ev.id
                           | none => env.uuid i)) 0 vs := by
                  simp [mergeUpdate, hvs]
                obtain ⟨h1, h2⟩ := mapped_variants_ok
                  (fun i =>
                    match a.variants.get? i with
                    | some ev => ev.id
                    | none => env.uuid i) vs hne hpos
                exact ⟨by rw [hva]; exact h1, by rw [hva]; exact h2⟩
            simp only [updateProduct, readProductsFromFile,
              ensureDataFileExists, hfi, writeProductsToFile]
            intro p hp
            rcases List.mem_or_eq_of_mem_set hp with hp | hp
            · exact hps p hp
            · subst hp
              exact hmerged
      | remove env id =>
          show StoreOk (deleteProduct env id (FileData.valid ps)).1
          rcases hfi : findIndex (fun p => p.id == id) ps with _ | idx
          · simpa [deleteProduct, readProductsFromFile,
              ensureDataFileExists, hfi, StoreOk] using hps
          · simp only [deleteProduct, readProductsFromFile,
              ensureDataFileExists, hfi, writeProductsToFile]
            intro p hp
            exact hps p (List.eraseIdx_subset ps idx hp)

theorem applyOps_preserves :
    ∀ (ops : List StoreOp) (f : FileData), StoreOk f →
      (∀ op ∈ ops, ValidOp op) → StoreOk (applyOps f ops)
  | [], f, hok, _ => hok
  | op :: ops, f, hok, hops =>
      applyOps_preserves ops (applyOp f op)
        (applyOp_preserves f op hok (hops op (by simp)))
        (fun o ho => hops o (by simp [ho]))

theorem seed_ok (now : String) :
    ∀ p ∈ createSeedProducts now, ProductOk p := by
  intro p hp
  simp only [createSeedProducts, List.mem_singleton] at hp
  subst hp
  refine ⟨by simp, ?_⟩
  intro v hv
  simp only [List.mem_cons] at hv
  rcases hv with rfl | rfl | h
  · decide
  · decide
  · exact absurd h (List.not_mem_nil v)

/-- C4: starting from the seed state or the empty collection, any
sequence of creates with schema-validated payloads, updates with
schema-validated partial payloads, and deletes keeps every stored product
with at least one variant, every variant strictly positively priced. -/
theorem store_invariant (now : String) (f0 : FileData) (ops : List StoreOp)
    (h0 : f0 = FileData.valid (createSeedProducts now) ∨
      f0 = FileData.valid [])
    (hops : ∀ op ∈ ops, ValidOp op) :
    StoreOk (applyOps f0 ops) := by
  apply applyOps_preserves ops f0 _ hops
  rcases h0 with rfl | rfl
  · exact seed_ok now
  · intro p hp
    exact absurd hp (List.not_mem_nil p)

/-- A concrete raw creation payload accepted by the schema. -/
def exRawCreate : RawCreate :=
  { title := some "Tee", vendor := some "V",
    variants := some [{ price := some 5 }] }

/-- The typed payload the schema produces for `exRawCreate`. -/
def exCreateInput : NewProductInput :=
  { title := "Tee", vendor := "V", variants := [{ price := 5 }] }

/-- C4 witness: a concrete create-then-delete run from the empty
collection keeps the invariant. -/
theorem store_invariant_w :
    StoreOk (applyOps (FileData.valid [])
      [StoreOp.create exEnv exCreateInput, StoreOp.remove exEnv "x"]) := by
  apply store_invariant "T0" _ _ (Or.inr rfl)
  intro op hop
  simp only [List.mem_cons] at hop
  rcases hop with rfl | rfl | h
  · exact ⟨exRawCreate, rfl⟩
  · trivial
  · exact absurd h (List.not_mem_nil op)

/-! ### Validation claim -/

/-- The spec's acceptance conditions for a creation payload (section 4.1
of the spec), stated independently of the checker: title and vendor
present and nonempty; body text, when present, at least 50 characters;
every option named and with at least one value; every image with a valid
URL; at least one variant, each strictly positively priced, with integer
nonnegative inventory when present; published_at, when given as a string,
a datetime. -/
def specAcceptsCreate (r : RawCreate) : Prop :=
  (∃ t, r.title = some t ∧ t ≠ "") ∧
  (∀ b, r.body_html = some b → 50 ≤ b.length) ∧
  (∃ vd, r.vendor = some vd ∧ vd ≠ "") ∧
  (∀ os, r.options = some os → ∀ o ∈ os,
    (∃ n, o.name = some n ∧ n ≠ "") ∧
      ∃ vals, o.values = some vals ∧ vals ≠ []) ∧
  (∀ imgs, r.images = some imgs → ∀ img ∈ imgs,
    ∃ s, img.src = some s ∧ isValidUrl s = true) ∧
  (∃ vs, r.variants = some vs ∧ vs ≠ [] ∧ ∀ v ∈ vs,
    (∃ p, v.price = some p ∧ 0 < p) ∧
      ∀ q, v.inventory_quantity = some q → q.den = 1 ∧ 0 ≤ q) ∧
  (∀ s, r.published_at = some (some s) → isIsoDatetime s = true)

theorem parseCreate_error_of_mem (r : RawCreate) (iss : Issue)
    (h : iss ∈ checkCreateProduct r) :
    ∃ issues, parseCreateProduct r = .error issues ∧ iss ∈ issues := by
  cases hc : checkCreateProduct r with
  | nil => rw [hc] at h; exact absurd h (List.not_mem_nil iss)
  | cons a l =>
      have he : parseCreateProduct r = .error (a :: l) := by
        simp only [parseCreateProduct, hc]
      exact ⟨a :: l, he, hc ▸ h⟩

theorem mem_checkCreate_title (r : RawCreate) (iss : Issue)
    (h : iss ∈ checkRequiredString "title" "Title is required" r.title) :
    iss ∈ checkCreateProduct r := by
  unfold checkCreateProduct
  simp only [List.mem_append]
  tauto

theorem mem_checkCreate_vendor (r : RawCreate) (iss : Issue)
    (h : iss ∈ checkRequiredString "vendor" "Vendor is required" r.vendor) :
    iss ∈ checkCreateProduct r := by
  unfold checkCreateProduct
  simp only [List.mem_append]
  tauto

theorem mem_checkCreate_variants (r : RawCreate) (iss : Issue)
    (h : iss ∈ checkRequiredVariants r.variants) :
    iss ∈ checkCreateProduct r := by
  unfold checkCreateProduct
  simp only [List.mem_append]
  tauto

/-- C8: the create-product validation rejects — as a structured,
field-keyed issue list, never a thrown fault (the parse function is
total) — every payload with zero variants, every payload containing a
variant whose price is 0 or negative, and every payload missing, or with
an empty, title or vendor; payloads satisfying all the stated rules are
accepted. -/
theorem createProductSchema_spec (r : RawCreate) :
    (r.variants = some [] →
      ∃ issues, parseCreateProduct r = .error issues ∧
        ∃ iss ∈ issues, iss.path = ["variants"]) ∧
    (∀ vs v p, r.variants = some vs → v ∈ vs → v.price = some p → p ≤ 0 →
      ∃ issues, parseCreateProduct r = .error issues ∧
        ∃ iss ∈ issues, iss.path.head? = some "variants") ∧
    ((r.title = none ∨ r.title = some "") →
      ∃ issues, parseCreateProduct r = .error issues ∧
        ∃ iss ∈ issues, iss.path = ["title"]) ∧
    ((r.vendor = none ∨ r.vendor = some "") →
      ∃ issues, parseCreateProduct r = .error issues ∧
        ∃ iss ∈ issues, iss.path = ["vendor"]) ∧
    (specAcceptsCreate r → ∃ input, parseCreateProduct r = .ok input) := by
  refine ⟨?_, ?_, ?_, ?_, ?_⟩
  · intro hvr
    obtain ⟨issues, he, hm⟩ := parseCreate_error_of_mem r
      ⟨["variants"], "At least one variant is required"⟩
      (mem_checkCreate_variants r _ (by
        rw [hvr]
        simp [checkRequiredVariants, checkVariantsList, mapWithIndex]))
    exact ⟨issues, he, _, hm, rfl⟩
  · intro vs v p hvr hv hp hple
    obtain ⟨i, hi⟩ := List.mem_iff_get?.1 hv
    have hiss : (⟨["variants", toString i, "price"],
        "Price must be greater than 0"⟩ : Issue)
        ∈ checkVariant ["variants", toString i] v := by
      simp [checkVariant, hp, not_lt.2 hple]
    have hmem : (⟨["variants", toString i, "price"],
        "Price must be greater than 0"⟩ : Issue)
        ∈ checkRequiredVariants r.variants := by
      rw [hvr]
      show _ ∈ checkVariantsList vs
      unfold checkVariantsList
      apply List.mem_append_right
      apply List.mem_flatten.2
      refine ⟨checkVariant ["variants", toString i] v, ?_, hiss⟩
      have hmm := mapWithIndex_mem_of_get?
        (fun i v => checkVariant ["variants", toString i] v) 0 hi
      simpa using hmm
    obtain ⟨issues, he, hm⟩ := parseCreate_error_of_mem r _
      (mem_checkCreate_variants r _ hmem)
    exact ⟨issues, he, _, hm, rfl⟩
  · intro ht
    rcases ht with ht | ht
    · obtain ⟨issues, he, hm⟩ := parseCreate_error_of_mem r
        ⟨["title"], "Required"⟩
        (mem_checkCreate_title r _ (by rw [ht]; simp [checkRequiredString]))
      exact ⟨issues, he, _, hm, rfl⟩
    · obtain ⟨issues, he, hm⟩ := parseCreate_error_of_mem r
        ⟨["title"], "Title is required"⟩
        (mem_checkCreate_title r _ (by rw [ht]; simp [checkRequiredString]))
      exact ⟨issues, he, _, hm, rfl⟩
  · intro ht
    rcases ht with ht | ht
    · obtain ⟨issues, he, hm⟩ := parseCreate_error_of_mem r
        ⟨["vendor"], "Required"⟩
        (mem_checkCreate_vendor r _ (by rw [ht]; simp [checkRequiredString]))
      exact ⟨issues, he, _, hm, rfl⟩
    · obtain ⟨issues, he, hm⟩ := parseCreate_error_of_mem r
        ⟨["vendor"], "Vendor is required"⟩
        (mem_checkCreate_vendor r _ (by rw [ht]; simp [checkRequiredString]))
      exact ⟨issues, he, _, hm, rfl⟩
  · intro hacc
    obtain ⟨⟨t, ht, htne⟩, hbody, ⟨vd, hvd, hvdne⟩, hopts, himgs,
      ⟨vs, hvr, hvsne, hvars⟩, hpub⟩ := hacc
    have h1 : checkRequiredString "title" "Title is required" r.title = [] := by
      rw [ht]
      simp [checkRequiredString, one_le_length_of_ne_empty t htne]
    have h2 : checkBody r.body_html = [] := by
      cases hb : r.body_html with
      | none => rfl
      | some b => simp [checkBody, hbody b hb]
    have h3 : checkRequiredString "vendor" "Vendor is required" r.vendor
        = [] := by
      rw [hvd]
      simp [checkRequiredString, one_le_length_of_ne_empty vd hvdne]
    have h4 : checkOptional checkOptionsList r.options = [] := by
      cases ho : r.options with
      | none => rfl
      | some os =>
          show checkOptionsList os = []
          unfold checkOptionsList
          apply List.flatten_eq_nil_iff.2
          intro l hl
          obtain ⟨i, o, hoin, rfl⟩ := mem_mapWithIndex _ os 0 l hl
          obtain ⟨⟨n, hn, hnne⟩, ⟨vals, hvals, hvalsne⟩⟩ :=
            hopts os ho o hoin
          have hlv : 1 ≤ vals.length := List.length_pos.2 hvalsne
          unfold checkOption
          rw [hn, hvals]
          simp [one_le_length_of_ne_empty n hnne, hlv]
    have h5 : checkOptional checkImagesList r.images = [] := by
      cases hio : r.images with
      | none => rfl
      | some imgs =>
          show checkImagesList imgs = []
          unfold checkImagesList
          apply List.flatten_eq_nil_iff.2
          intro l hl
          obtain ⟨i, img, hin, rfl⟩ := mem_mapWithIndex _ imgs 0 l hl
          obtain ⟨s, hs, hurl⟩ := himgs imgs hio img hin
          unfold checkImage
          rw [hs]
          simp [hurl]
    have h6 : checkRequiredVariants r.variants = [] := by
      rw [hvr]
      show checkVariantsList vs = []
      unfold checkVariantsList
      have hlv : 1 ≤ vs.length := List.length_pos.2 hvsne
      rw [if_pos hlv]
      rw [List.nil_append]
      apply List.flatten_eq_nil_iff.2
      intro l hl
      obtain ⟨i, v, hvin, rfl⟩ := mem_mapWithIndex _ vs 0 l hl
      obtain ⟨⟨p, hp, hppos⟩, hinv⟩ := hvars v hvin
      unfold checkVariant
      rw [hp]
      rcases hq : v.inventory_quantity with _ | q
      · simp [hppos]
      · obtain ⟨hden, hq0⟩ := hinv q hq
        simp [hppos, hden, hq0]
    have h7 : checkPublished r.published_at = [] := by
      rcases hpa : r.published_at with _ | s2
      · simp [checkPublished, hpa]
      · rcases s2 with _ | s
        · simp [checkPublished, hpa]
        · simp [checkPublished, hpa, hpub s hpa]
    have hchk : checkCreateProduct r = [] := by
      unfold checkCreateProduct
      rw [h1, h2, h3, h4, h5, h6, h7]
      rfl
    have hok : parseCreateProduct r = .ok
        { title := r.title.getD ""
          body_html := r.body_html
          vendor := r.vendor.getD ""
          product_type := r.product_type
          tags := r.tags
          options := r.options.map (·.map RawOption.toShopifyOption)
          images := r.images.map (·.map RawImage.toShopifyImage)
          variants := (r.variants.getD []).map RawVariant.toVariantInput
          published_at := r.published_at } := by
      simp only [parseCreateProduct, hchk]
    exact ⟨_, hok⟩

/-- C8 witness: a payload with zero variants is rejected, and a concrete
rule-satisfying payload is accepted. -/
theorem createProductSchema_spec_w :
    (parseCreateProduct
      { title := some "t", vendor := some "v",
        variants := some [] }).isOk = false ∧
    (parseCreateProduct exRawCreate).isOk = true := by
  constructor
  · obtain ⟨issues, he, -⟩ :=
      (createProductSchema_spec
        { title := some "t", vendor := some "v", variants := some [] }).1 rfl
    rw [he]
    rfl
  · have hvarcond : ∀ v ∈ [({ price := some 5 } : RawVariant)],
        (∃ p, v.price = some p ∧ 0 < p) ∧
          ∀ q, v.inventory_quantity = some q → q.den = 1 ∧ 0 ≤ q := by
      intro v hv
      have hv' : v = { price := some 5 } := List.mem_singleton.1 hv
      subst hv'
      exact ⟨⟨5, rfl, by decide⟩, fun q hq => by exact absurd hq (by simp)⟩
    obtain ⟨input, he⟩ :=
      (createProductSchema_spec exRawCreate).2.2.2.2
        ⟨⟨"Tee", rfl, by decide⟩,
         fun b hb => by exact absurd hb (by simp [exRawCreate]),
         ⟨"V", rfl, by decide⟩,
         fun os h => by exact absurd h (by simp [exRawCreate]),
         fun imgs h => by exact absurd h (by simp [exRawCreate]),
         ⟨[{ price := some 5 }], rfl, by simp, hvarcond⟩,
         fun s h => by exact absurd h (by simp [exRawCreate])⟩
    rw [he]
    rfl

/-! ### User store claims -/

/-- C9: for both the in-memory and the file-backed user store,
`createUser` fails with "already exists" — leaving the stored user list
unchanged — whenever some stored user's email matches the given email
case-insensitively (in particular when the two differ only in case);
otherwise it appends a new user carrying a fresh identifier and the
salted one-way hash of the password and returns that record (the
file-backed variant also writing the new list through to disk). -/
theorem createUser_spec (env : UserEnv) (name email password : String)
    (users : List LocalUser) (s : UserStore)
    (hfreshm : ∀ u ∈ users, u.id ≠ env.freshId)
    (hfreshf : ∀ u ∈ (ensureLoaded s).users, u.id ≠ env.freshId) :
    ((∃ u ∈ users, lowerStr u.email = lowerStr email) →
      createUserMem env name email password users =
        (.error "User with this email already exists", users)) ∧
    ((∀ u ∈ users, lowerStr u.email ≠ lowerStr email) →
      ∃ user, createUserMem env name email password users =
          (.ok user, users ++ [user]) ∧
        user.id = env.freshId ∧ user.id ∉ users.map (·.id) ∧
        user.name = some name ∧ user.email = email ∧
        user.passwordHash = env.bcryptHash password) ∧
    ((∃ u ∈ (ensureLoaded s).users, lowerStr u.email = lowerStr email) →
      createUserFile env name email password s =
        (.error "User with this email already exists", ensureLoaded s)) ∧
    ((∀ u ∈ (ensureLoaded s).users, lowerStr u.email ≠ lowerStr email) →
      ∃ user, (createUserFile env name email password s).1 = .ok user ∧
        (createUserFile env name email password s).2.users =
          (ensureLoaded s).users ++ [user] ∧
        (createUserFile env name email password s).2.disk =
          saveUsersToDisk ((ensureLoaded s).users ++ [user]) ∧
        user.id = env.freshId ∧
        user.id ∉ (ensureLoaded s).users.map (·.id) ∧
        user.name = some name ∧ user.email = email ∧
        user.passwordHash = env.bcryptHash password) := by
  refine ⟨?_, ?_, ?_, ?_⟩
  · rintro ⟨u, hu, he⟩
    obtain ⟨w, hw⟩ : ∃ w, users.find?
        (fun u => lowerStr u.email == lowerStr email) = some w := by
      cases hfind : users.find? (fun u => lowerStr u.email == lowerStr email)
        with
      | some w => exact ⟨w, rfl⟩
      | none =>
          have hc := List.find?_eq_none.1 hfind u hu
          simp [he] at hc
    simp [createUserMem, hw]
  · intro hnone
    have hfind : users.find?
        (fun u => lowerStr u.email == lowerStr email) = none :=
      List.find?_eq_none.2 fun u hu => by simpa using hnone u hu
    refine ⟨⟨env.freshId, some name, email, env.bcryptHash password⟩,
      ?_, rfl, ?_, rfl, rfl, rfl⟩
    · simp [createUserMem, hfind]
    · intro hmem
      obtain ⟨u, hu, hid⟩ := List.mem_map.1 hmem
      exact hfreshm u hu hid
  · rintro ⟨u, hu, he⟩
    obtain ⟨w, hw⟩ : ∃ w, (ensureLoaded s).users.find?
        (fun u => lowerStr u.email == lowerStr email) = some w := by
      cases hfind : (ensureLoaded s).users.find?
        (fun u => lowerStr u.email == lowerStr email) with
      | some w => exact ⟨w, rfl⟩
      | none =>
          have hc := List.find?_eq_none.1 hfind u hu
          simp [he] at hc
    simp [createUserFile, hw]
  · intro hnone
    have hfind : (ensureLoaded s).users.find?
        (fun u => lowerStr u.email == lowerStr email) = none :=
      List.find?_eq_none.2 fun u hu => by simpa using hnone u hu
    refine ⟨⟨env.freshId, some name, email, env.bcryptHash password⟩,
      ?_, ?_, ?_, rfl, ?_, rfl, rfl, rfl⟩
    · simp [createUserFile, hfind]
    · simp [createUserFile, hfind]
    · simp [createUserFile, hfind]
    · intro hmem
      obtain ⟨u, hu, hid⟩ := List.mem_map.1 hmem
      exact hfreshf u hu hid

/-- A concrete stored user, stored email with capital letters. -/
def exUser : LocalUser :=
  { id := "u1", name := some "Ada", email := "Ada@Example.com",
    passwordHash := "h0" }

/-- A concrete user-store environment. -/
def exUserEnv : UserEnv :=
  { freshId := "u2", bcryptHash := fun pw => "hash:" ++ pw }

/-- C9 witness: the in-memory store rejects an email differing only in
case from a stored one and keeps the list unchanged, while the file-backed
store accepts a genuinely new email. -/
theorem createUser_spec_w :
    createUserMem exUserEnv "Bob" "ada@example.com" "pw" [exUser] =
      (.error "User with this email already exists", [exUser]) ∧
    (createUserFile exUserEnv "Bob" "new@example.com" "pw"
      { loaded := true, users := [exUser], disk := .absent }).1.isOk
      = true := by
  constructor
  · exact (createUser_spec exUserEnv "Bob" "ada@example.com" "pw" [exUser]
      { loaded := true, users := [exUser], disk := .absent }
      (by decide) (by decide)).1 ⟨exUser, by decide, by decide⟩
  · obtain ⟨user, hok, -, -, -, -, -, -⟩ :=
      (createUser_spec exUserEnv "Bob" "new@example.com" "pw" [exUser]
        { loaded := true, users := [exUser], disk := .absent }
        (by decide) (by decide)).2.2.2 (by decide)
    rw [hok]
    rfl

theorem strVal?_some (o : Option Json) (s : String) :
    strVal? o = some s ↔ o = some (.str s) := by
  cases o with
  | none => simp [strVal?]
  | some j => cases j <;> simp [strVal?]

theorem asLocalUser?_isSome (j : Json) :
    (asLocalUser? j).isSome = true ↔
      (∃ i, j.getField "id" = some (.str i)) ∧
      (∃ e, j.getField "email" = some (.str e)) ∧
      (∃ h, j.getField "passwordHash" = some (.str h)) := by
  constructor
  · intro hs
    unfold asLocalUser? at hs
    rcases h1 : strVal? (j.getField "id") with _ | i
    · rw [h1] at hs; simp at hs
    rcases h2 : strVal? (j.getField "email") with _ | e
    · rw [h1, h2] at hs; simp at hs
    rcases h3 : strVal? (j.getField "passwordHash") with _ | hh
    · rw [h1, h2, h3] at hs; simp at hs
    exact ⟨⟨i, (strVal?_some _ _).1 h1⟩, ⟨e, (strVal?_some _ _).1 h2⟩,
      ⟨hh, (strVal?_some _ _).1 h3⟩⟩
  · rintro ⟨⟨i, hi⟩, ⟨e, hee⟩, ⟨hh, hha⟩⟩
    unfold asLocalUser?
    rw [hi, hee, hha]
    rfl

theorem asLocalUser?_fields (j : Json) (u : LocalUser)
    (h : asLocalUser? j = some u) :
    j.getField "id" = some (.str u.id) ∧
    j.getField "email" = some (.str u.email) ∧
    j.getField "passwordHash" = some (.str u.passwordHash) := by
  unfold asLocalUser? at h
  rcases h1 : strVal? (j.getField "id") with _ | i
  · rw [h1] at h; simp at h
  rcases h2 : strVal? (j.getField "email") with _ | e
  · rw [h1, h2] at h; simp at h
  rcases h3 : strVal? (j.getField "passwordHash") with _ | hh
  · rw [h1, h2, h3] at h; simp at h
  rw [h1, h2, h3] at h
  simp only [Option.some.injEq] at h
  subst h
  exact ⟨(strVal?_some _ _).1 h1, (strVal?_some _ _).1 h2,
    (strVal?_some _ _).1 h3⟩

/-- C10: the one-time disk load keeps exactly those entries of the parsed
JSON array that are objects with string id, email and passwordHash fields
(malformed entries are silently dropped, and each kept record carries
those field values); a missing, unreadable, unparseable, or non-array
document loads as the empty list — loading is a total function and never
raises — and `ensureLoaded` performs the load exactly once, guarded by the
process-wide flag. -/
theorem loadUsers_spec (s : UserStore) (items : List Json) (j : Json) :
    loadUsersFromDisk (.json (.arr items)) = items.filterMap asLocalUser? ∧
    (∀ jj ∈ items, ((asLocalUser? jj).isSome = true ↔
      (∃ i, jj.getField "id" = some (.str i)) ∧
      (∃ e, jj.getField "email" = some (.str e)) ∧
      (∃ h, jj.getField "passwordHash" = some (.str h)))) ∧
    (∀ u, asLocalUser? j = some u →
      j.getField "id" = some (.str u.id) ∧
      j.getField "email" = some (.str u.email) ∧
      j.getField "passwordHash" = some (.str u.passwordHash)) ∧
    loadUsersFromDisk .absent = [] ∧
    loadUsersFromDisk .unreadable = [] ∧
    loadUsersFromDisk .unparseable = [] ∧
    ((∀ its, j ≠ .arr its) → loadUsersFromDisk (.json j) = []) ∧
    (s.loaded = false →
      (ensureLoaded s).users = loadUsersFromDisk s.disk ∧
      (ensureLoaded s).loaded = true ∧ (ensureLoaded s).disk = s.disk) ∧
    (s.loaded = true → ensureLoaded s = s) := by
  refine ⟨rfl, fun jj _ => asLocalUser?_isSome jj, asLocalUser?_fields j,
    rfl, rfl, rfl, ?_, ?_, ?_⟩
  · intro hne
    cases j with
    | null => rfl
    | bool b => rfl
    | num q => rfl
    | str s => rfl
    | arr its => exact absurd rfl (hne its)
    | obj fields => rfl
  · intro hl
    refine ⟨?_, ?_, ?_⟩ <;> simp [ensureLoaded, hl]
  · intro hl
    simp [ensureLoaded, hl]

/-- A well-formed stored user entry as parsed JSON. -/
def exUserJson : Json :=
  .obj [("id", .str "u1"), ("name", .str "Ada"), ("email", .str "a@b.c"),
    ("passwordHash", .str "h0")]

/-- C10 witness: a two-entry array with one malformed entry loads as the
single well-formed record, and an unset flag triggers the load of a
missing document as the empty list. -/
theorem loadUsers_spec_w :
    loadUsersFromDisk (UserDisk.json (.arr [exUserJson, .str "junk"])) =
      [{ id := "u1", name := some "Ada", email := "a@b.c",
         passwordHash := "h0" }] ∧
    (ensureLoaded { loaded := false, users := [], disk := .absent }).users
      = [] := by
  constructor
  · have h := (loadUsers_spec
      { loaded := false, users := [], disk := .absent }
      [exUserJson, .str "junk"] .null).1
    rw [h]
    rfl
  · obtain ⟨-, -, -, habs, -, -, -, hload, -⟩ := loadUsers_spec
      { loaded := false, users := [], disk := .absent } [] .null
    rw [(hload rfl).1]
    exact habs

end Shop
